import Mathlib

/-!
Verification development for the CI-tooling installer (`entrypoint.py`).

The Python program reads a TOML manifest of tool versions, validates each
entry, decides per tool whether to (re)install, and builds the installer
command line per ecosystem (Rust crates via cargo install / cargo binstall,
Python packages via pip / uv pip).  The definitions below are a shallow
embedding of that program: regular expressions become executable character
list matchers, the TOML values become an inductive type, the loop of
`main` becomes a recursion producing the trace of log messages and the
list of built install commands.
-/

/-- ASCII alphanumeric, the class `[a-zA-Z0-9]` of the Python regexes.
`Char.isAlpha`/`Char.isDigit` are the ASCII ranges. -/
def isAsciiAlnum (c : Char) : Bool := c.isAlpha || c.isDigit

/-- The class `[a-zA-Z0-9._-]` of `TOOL_NAME_PATTERN`. -/
def isNameChar (c : Char) : Bool := isAsciiAlnum c || c == '.' || c == '_' || c == '-'

/-- Matches the regex fragment `[a-zA-Z0-9._-]*[a-zA-Z0-9]`: a nonempty
string whose last character is alphanumeric and whose other characters are
in the name class. -/
def classStarAlnum : List Char → Bool
  | [] => false
  | [c] => isAsciiAlnum c
  | c :: c2 :: r => isNameChar c && classStarAlnum (c2 :: r)

/-- Full match of `TOOL_NAME_PATTERN = [a-zA-Z0-9](?:[a-zA-Z0-9._-]+[a-zA-Z0-9])?`
(entrypoint.py line 17).  The optional group needs at least two characters
(`+` then a final alphanumeric), so a match is either a single alphanumeric
character, or an alphanumeric, one name-class character, and then
`[a-zA-Z0-9._-]*[a-zA-Z0-9]`. -/
def toolNameChars : List Char → Bool
  | [] => false
  | [c] => isAsciiAlnum c
  | c :: c2 :: r => isAsciiAlnum c && isNameChar c2 && classStarAlnum r

/-- `TOOL_NAME_PATTERN.fullmatch` on a string. -/
def toolNameMatch (s : String) : Bool := toolNameChars s.data

/-- Full match of `SOURCE_PATTERN = [a-z]+` (entrypoint.py line 31). -/
def sourceMatch (s : String) : Bool := !s.data.isEmpty && s.data.all Char.isLower

/-! ### VERSION_PATTERN (entrypoint.py lines 19-30)

```
^ v? (?:\d+!)? (?:0|[1-9]\d*)(?:\.(?:0|[1-9]\d*)){2}
  ([-.][a-zA-Z]+(?:\.?\d+)?)? (?:\+[a-zA-Z]+(?:\.\d+)?)? $
```

The pattern is deterministic: every component starts with a character no
other component can consume ('v', a digit run ending in '!', digits and
dots for the release triple, '-' or '.' for the pre-release, '+' for the
build suffix), so greedy left-to-right consumption is equivalent to the
backtracking regex and each `eat` function below consumes exactly one
component. -/

/-- Consume the optional `v?` prefix. -/
def eatV (l : List Char) : List Char :=
  match l with
  | c :: r => if c == 'v' then r else l
  | [] => []

/-- Consume the optional epoch `(?:\d+!)?`: a nonempty digit run directly
followed by '!'. -/
def eatEpoch (l : List Char) : List Char :=
  match l.dropWhile Char.isDigit with
  | c :: r => if c == '!' && !(l.takeWhile Char.isDigit).isEmpty then r else l
  | [] => l

/-- Consume one release segment `(?:0|[1-9]\d*)`: a nonempty digit run with
no leading zero (unless it is exactly "0"). -/
def eatSegment (l : List Char) : Option (List Char) :=
  let ds := l.takeWhile Char.isDigit
  if ds.isEmpty then none
  else if ds.head? == some '0' && ds.length != 1 then none
  else some (l.dropWhile Char.isDigit)

/-- Consume a literal '.'. -/
def eatDot : List Char → Option (List Char)
  | '.' :: r => some r
  | _ => none

/-- Consume the release triple `(?:0|[1-9]\d*)(?:\.(?:0|[1-9]\d*)){2}`. -/
def eatRelease (l : List Char) : Option (List Char) :=
  (eatSegment l).bind fun l1 =>
    (eatDot l1).bind fun l2 =>
      (eatSegment l2).bind fun l3 =>
        (eatDot l3).bind fun l4 =>
          eatSegment l4

/-- Consume the optional numeric tail `(?:\.?\d+)?` of the pre-release. -/
def eatNum (l : List Char) : List Char :=
  match l with
  | c :: r =>
    if c == '.' then
      if (r.headD ' ').isDigit then r.dropWhile Char.isDigit else l
    else if c.isDigit then l.dropWhile Char.isDigit
    else l
  | [] => []

/-- Consume the optional pre-release `([-.][a-zA-Z]+(?:\.?\d+)?)?`.  When the
next character is '-' or '.', only this group can consume it, so a missing
alphabetic run makes the whole match fail (`none`). -/
def eatPre (l : List Char) : Option (List Char) :=
  match l with
  | c :: r =>
    if c == '-' || c == '.' then
      if (r.takeWhile Char.isAlpha).isEmpty then none
      else some (eatNum (r.dropWhile Char.isAlpha))
    else some l
  | [] => some []

/-- Consume the optional numeric tail `(?:\.\d+)?` of the build suffix. -/
def eatBuildNum (l : List Char) : List Char :=
  match l with
  | c :: r => if c == '.' && (r.headD ' ').isDigit then r.dropWhile Char.isDigit else l
  | [] => []

/-- Consume the optional build suffix `(?:\+[a-zA-Z]+(?:\.\d+)?)?`. -/
def eatBuild (l : List Char) : Option (List Char) :=
  match l with
  | c :: r =>
    if c == '+' then
      if (r.takeWhile Char.isAlpha).isEmpty then none
      else some (eatBuildNum (r.dropWhile Char.isAlpha))
    else some l
  | [] => some []

/-- Full match of `VERSION_PATTERN` on a character list. -/
def versionChars (l : List Char) : Bool :=
  match eatRelease (eatEpoch (eatV l)) with
  | none => false
  | some l1 =>
    match eatPre l1 with
    | none => false
    | some l2 =>
      match eatBuild l2 with
      | none => false
      | some l3 => l3.isEmpty

/-- `VERSION_PATTERN.fullmatch` on a string. -/
def versionMatch (s : String) : Bool := versionChars s.data

/-! ### TOML values and the field validators (entrypoint.py lines 84-179)

`validate_item` is a single generic routine in the source; each
`functools.partial` specialization below becomes its own definition,
with the generic routine's order of checks (mandatory, type, regex) and
its message format `{tool_name}: {Field} {problem}` reproduced in each.
Every validator returns its boolean result together with the list of
error messages it logs. -/

/-- A TOML value as produced by `tomllib` for the fields this program
reads: strings, booleans, integers, arrays and tables.  Floats, dates and
times never appear in the claims' inputs and are not distinguished from
`int` by any validator (`isinstance` fails on all of them alike), so `int`
stands in for every non-string non-bool non-container scalar. -/
inductive Toml where
  | str (s : String)
  | bool (b : Bool)
  | int (n : Int)
  | arr (xs : List Toml)
  | table (kvs : List (String × Toml))
deriving Repr

/-- `value.get(key)` on a parsed TOML table. -/
def tomlGet (v : Toml) (key : String) : Option Toml :=
  match v with
  | .table kvs => kvs.lookup key
  | _ => none

/-- Python's `repr` of a string, for the `{value!r}` interpolations.  The
embedding covers strings without quotes or escapes, which is every string
the error-message claims mention. -/
def pyRepr (s : String) : String := "'" ++ s ++ "'"

/-- Prefix an error message with the tool name as `error_msg` does
(entrypoint.py lines 103-107). -/
def errorMsg (tool_name : Option String) (msg : String) : String :=
  match tool_name with
  | some t => t ++ ": " ++ msg
  | none => msg

/-- `validate_details` (entrypoint.py lines 129-137): field "tool details"
(capitalized to "Tool details"), type `dict`, mandatory, no regex. -/
def validate_details (tool_name : Option String) (value : Option Toml) : Bool × List String :=
  match value with
  | none => (false, [errorMsg tool_name "Tool details is mandatory"])
  | some (.table _) => (true, [])
  | some _ => (false, [errorMsg tool_name "Tool details must be dict"])

/-- `validate_tool_name` (entrypoint.py lines 140-149): field "tool name",
`tool_name=None`, type `str`, mandatory, regex `TOOL_NAME_PATTERN`.  In
`read_tools` the value is a TOML key, hence always a present string, so
the mandatory and type checks always pass. -/
def validate_tool_name (value : String) : Bool × List String :=
  if toolNameMatch value then (true, [])
  else (false, [errorMsg none ("Tool name doesn't match crates.io or Pypi tool name: " ++ pyRepr value)])

/-- `validate_version` (entrypoint.py lines 151-159): field "version",
type `str`, mandatory, regex `VERSION_PATTERN`. -/
def validate_version (tool_name : Option String) (value : Option Toml) : Bool × List String :=
  match value with
  | none => (false, [errorMsg tool_name "Version is mandatory"])
  | some (.str s) =>
    if versionMatch s then (true, [])
    else (false, [errorMsg tool_name ("Version doesn't match semver or PEP440 scheme: " ++ pyRepr s)])
  | some _ => (false, [errorMsg tool_name "Version must be string"])

/-- `validate_source` (entrypoint.py lines 161-169): field "source",
type `str`, mandatory, regex `SOURCE_PATTERN`. -/
def validate_source (tool_name : Option String) (value : Option Toml) : Bool × List String :=
  match value with
  | none => (false, [errorMsg tool_name "Source is mandatory"])
  | some (.str s) =>
    if sourceMatch s then (true, [])
    else (false, [errorMsg tool_name ("Source doesn't match source name pattern: " ++ pyRepr s)])
  | some _ => (false, [errorMsg tool_name "Source must be string"])

/-- `validate_locked` (entrypoint.py lines 171-179): field "locked",
type `bool`, optional, no regex. -/
def validate_locked (tool_name : Option String) (value : Option Toml) : Bool × List String :=
  match value with
  | none => (true, [])
  | some (.bool _) => (true, [])
  | some _ => (false, [errorMsg tool_name "Locked must be boolean"])

/-! ### ToolInfo and read_tools (entrypoint.py lines 84-89 and 182-225) -/

/-- The `ToolInfo` dataclass.  The Python code stores the raw extracted
values; after validation `version` and `source` are strings and `locked`
is a boolean or `None`, and every consumer (`main`) uses `tool.locked`
only for its truthiness, so `None` is represented as `false`. -/
structure ToolInfo where
  name : String
  version : String
  source : String
  locked : Bool
deriving DecidableEq, Repr

/-- The string payload of a validated `version`/`source` value. -/
def strOf : Option Toml → String
  | some (.str s) => s
  | _ => ""

/-- The boolean payload of a validated `locked` value (`None` is falsy). -/
def boolOf : Option Toml → Bool
  | some (.bool b) => b
  | _ => false

/-- The per-entry loop of `read_tools` (entrypoint.py lines 203-225) over
the requested section, given as the ordered list of key/value pairs of the
TOML table.  Any validation failure aborts the whole read with `None`;
otherwise every entry contributes a `ToolInfo` in order.  The enclosing
I/O (file existence, `tomllib` parse, section lookup, lines 189-199) is
external and not part of this model. -/
def read_tools : List (String × Toml) → Option (List ToolInfo)
  | [] => some []
  | (tool_name, value) :: rest =>
    if !(validate_tool_name tool_name).1 then none
    else if !(validate_details (some tool_name) (some value)).1 then none
    else
      let version := tomlGet value "version"
      let source := tomlGet value "source"
      let locked := tomlGet value "locked"
      if (validate_version (some tool_name) version).1
          && (validate_source (some tool_name) source).1
          && (validate_locked (some tool_name) locked).1 then
        match read_tools rest with
        | some tl =>
          some ({ name := tool_name, version := strOf version,
                  source := strOf source, locked := boolOf locked } :: tl)
        | none => none
      else none

/-- All five validations of one manifest entry, in the order `read_tools`
applies them. -/
def entryValid (e : String × Toml) : Bool :=
  (validate_tool_name e.1).1
    && (validate_details (some e.1) (some e.2)).1
    && (validate_version (some e.1) (tomlGet e.2 "version")).1
    && (validate_source (some e.1) (tomlGet e.2 "source")).1
    && (validate_locked (some e.1) (tomlGet e.2 "locked")).1

/-- The `ToolInfo` built from a valid manifest entry. -/
def entryRecord (e : String × Toml) : ToolInfo :=
  { name := e.1, version := strOf (tomlGet e.2 "version"),
    source := strOf (tomlGet e.2 "source"), locked := boolOf (tomlGet e.2 "locked") }

/-! ### The install decision, command builders, and the main loop
(entrypoint.py lines 228-346 and 433-501)

Log output is modelled structurally: each `logger.…(f"…")` call site
becomes one `LogMsg` constructor carrying the interpolated values, so
that counting occurrences of a particular message is exact.  `render`
maps each constructor back to the literal message text of the source.
Log-level filtering (`isEnabledFor`) only suppresses display and is not
modelled; external process execution (`subprocess.run`) is a collaborator
whose invocations the model returns as the list of built commands. -/

/-- One log message of the decision engine, command builders and main
loop, tagged by call site. -/
inductive LogMsg where
  /-- info `f"{name} not found, installing..."` (line 241) -/
  | notFoundInstalling (name : String)
  /-- info `f"{name} already installed with {version}"` (line 245) -/
  | alreadyInstalled (name version : String)
  /-- warning, the mismatch message of lines 248-255; `reinstalling` is
  `force_install`, which decides the `" Reinstalling..."` suffix -/
  | versionMismatch (installed expected : String) (reinstalling : Bool)
  /-- error `f"Unknown installation method: {install_method}"` (lines 301, 334) -/
  | unknownInstallMethod (method : String)
  /-- warning "Force install flag is not yet supported for Python packages" (line 343) -/
  | pythonForceNotSupported
  /-- info `f"{tool.name}: Locked install is not supported for Python install"` (lines 479-481) -/
  | lockedNotSupportedPython (name : String)
  /-- warning `f"{tool.name}: Source is not supported"` (line 483) -/
  | sourceNotSupported (name : String)
  /-- info `f"Installing {versioned_tool}"` (line 270) -/
  | installing (tool : String)
  /-- warn/debug `f"Running install command: {' '.join(command)!r}"` (line 278) -/
  | runningCommand (command : List String)
  /-- info `f"Successfully installed {versioned_tool}"` (line 283) -/
  | successfullyInstalled (tool : String)
deriving DecidableEq, Repr

/-- The literal message text each `LogMsg` stands for.  The mismatch
message reproduces the source's slip: its first component is a plain (not
f-) string, so the text contains `{tool_name}` literally. -/
def LogMsg.render : LogMsg → String
  | .notFoundInstalling name => name ++ " not found, installing..."
  | .alreadyInstalled name version => name ++ " already installed with " ++ version
  | .versionMismatch installed expected reinstalling =>
    "{tool_name} version mismatch (found: " ++ installed ++ ", expected: " ++ expected ++ ")."
      ++ (if reinstalling then " Reinstalling..." else "")
  | .unknownInstallMethod method => "Unknown installation method: " ++ method
  | .pythonForceNotSupported => "Force install flag is not yet supported for Python packages"
  | .lockedNotSupportedPython name => name ++ ": Locked install is not supported for Python install"
  | .sourceNotSupported name => name ++ ": Source is not supported"
  | .installing tool => "Installing " ++ tool
  | .runningCommand command => "Running install command: " ++ pyRepr (" ".intercalate command)
  | .successfullyInstalled tool => "Successfully installed " ++ tool

/-- `check_tool_installed` (entrypoint.py lines 228-256): the decision
value returned to `main` (where `True` makes the loop `continue`, i.e.
skip the tool) together with the messages logged.  `if not
installed_version` is Python truthiness, so a mapped empty string takes
the same branch as an absent key. -/
def check_tool_installed (name version : String) (force_install : Bool)
    (installed_tools : List (String × String)) : Bool × List LogMsg :=
  match installed_tools.lookup name with
  | none => (false, [.notFoundInstalling name])
  | some installed_version =>
    if installed_version = "" then (false, [.notFoundInstalling name])
    else if installed_version = version then (false, [.alreadyInstalled name version])
    else (force_install, [.versionMismatch installed_version version force_install])

/-- `run_install_tool` (entrypoint.py lines 259-284): assembles the
command as `list(prepared_command) + additional_args + [versioned_tool]`
and logs around the (external) `subprocess.run`.  Returns the assembled
command and the log messages. -/
def run_install_tool (versioned_tool : String)
    (prepared_command additional_args : List String) : List String × List LogMsg :=
  let command := prepared_command ++ additional_args ++ [versioned_tool]
  (command, [.installing versioned_tool, .runningCommand command, .successfullyInstalled versioned_tool])

/-- `prepare_rust_install_command` (entrypoint.py lines 287-312).
`binstall_on_path` stands for `bool(shutil.which("cargo-binstall"))`. -/
def prepare_rust_install_command (force_install : Bool) (install_method : String)
    (binstall_on_path : Bool) : Option (List String) × List LogMsg :=
  let use_cargo_binstall : Option Bool :=
    if install_method = "prefer-binstall" then some binstall_on_path
    else if install_method = "binstall" then some true
    else if install_method = "install" then some false
    else none
  match use_cargo_binstall with
  | none => (none, [.unknownInstallMethod install_method])
  | some ub =>
    let command := if ub then ["cargo", "binstall", "--no-confirm"] else ["cargo", "install"]
    let command := if force_install then command ++ ["--force"] else command
    (some command, [])

/-- `prepare_python_install_command` (entrypoint.py lines 315-346).
`uv_on_path` stands for `bool(shutil.which("uv"))`;
`warning_met` is the global `warning_python_force_install_met` on entry.
Returns the prepared command, the updated global flag, and the logs.
On an unknown method the function returns before the force-install
check, leaving the flag unchanged and the warning unemitted. -/
def prepare_python_install_command (force_install : Bool) (install_method : String)
    (uv_on_path : Bool) (warning_met : Bool) :
    Option (List String) × Bool × List LogMsg :=
  let use_python_uv : Option Bool :=
    if install_method = "prefer-uv" then some uv_on_path
    else if install_method = "uv" then some true
    else if install_method = "pip" then some false
    else none
  match use_python_uv with
  | none => (none, warning_met, [.unknownInstallMethod install_method])
  | some uu =>
    let command := if uu then ["uv", "pip", "install"] else ["pip", "install"]
    if force_install && !warning_met then (some command, true, [.pythonForceNotSupported])
    else (some command, warning_met, [])

/-- The per-tool loop of `main` (entrypoint.py lines 464-499).  For each
tool it dispatches on `tool.source`, consults `check_tool_installed` —
with `installed_rust_tools` in **both** the crate and the pypi branch,
as the source does on lines 470 and 476 — and on a no-skip decision
assembles the command via `run_install_tool`.  Commands are returned
tagged with their source.  A `none` prepared command reaching
`run_install_tool` would raise `TypeError` in Python (uncaught), modelled
as an overall `none`. -/
def main_loop (force_install : Bool) (installed_rust_tools : List (String × String))
    (prepared_command_rust prepared_command_python : Option (List String)) :
    List ToolInfo → Option (List LogMsg × List (String × List String))
  | [] => some ([], [])
  | tool :: rest =>
    if tool.source = "crate" then
      let versioned_tool := tool.name ++ "@" ++ tool.version
      let additional_args := if tool.locked then ["--locked"] else []
      let check := check_tool_installed tool.name tool.version force_install installed_rust_tools
      if check.1 then
        (main_loop force_install installed_rust_tools prepared_command_rust prepared_command_python rest).map
          fun lc => (check.2 ++ lc.1, lc.2)
      else
        match prepared_command_rust with
        | none => none
        | some pc =>
          let ran := run_install_tool versioned_tool pc additional_args
          (main_loop force_install installed_rust_tools prepared_command_rust prepared_command_python rest).map
            fun lc => (check.2 ++ ran.2 ++ lc.1, ("crate", ran.1) :: lc.2)
    else if tool.source = "pypi" then
      let versioned_tool := tool.name ++ "==" ++ tool.version
      let logs0 := if tool.locked then [LogMsg.lockedNotSupportedPython tool.name] else []
      let check := check_tool_installed tool.name tool.version force_install installed_rust_tools
      if check.1 then
        (main_loop force_install installed_rust_tools prepared_command_rust prepared_command_python rest).map
          fun lc => (logs0 ++ check.2 ++ lc.1, lc.2)
      else
        match prepared_command_python with
        | none => none
        | some pc =>
          let ran := run_install_tool versioned_tool pc []
          (main_loop force_install installed_rust_tools prepared_command_rust prepared_command_python rest).map
            fun lc => (logs0 ++ check.2 ++ ran.2 ++ lc.1, ("pypi", ran.1) :: lc.2)
    else
      (main_loop force_install installed_rust_tools prepared_command_rust prepared_command_python rest).map
        fun lc => (LogMsg.sourceNotSupported tool.name :: lc.1, lc.2)

/-- `main` after argument parsing and registry discovery (entrypoint.py
lines 433-501): both install commands are prepared once up front — the
global warning flag starts `False` at process start — and then the tool
list is processed.  `installed_python_packages` is computed by `main`
(line 440) but, by the copy-paste slip on line 476, never consulted by
the loop; it is kept as a parameter to state that fact.  Returns the
run's log trace and the tagged install commands. -/
def run_main (force_install : Bool) (rust_install_method python_install_method : String)
    (binstall_on_path uv_on_path : Bool)
    (installed_rust_tools installed_python_packages : List (String × String))
    (tools : List ToolInfo) : Option (List LogMsg × List (String × List String)) :=
  let prep_rust := prepare_rust_install_command force_install rust_install_method binstall_on_path
  let prep_python := prepare_python_install_command force_install python_install_method uv_on_path false
  let _ := installed_python_packages
  (main_loop force_install installed_rust_tools prep_rust.1 prep_python.1 tools).map
    fun lc => (prep_rust.2 ++ prep_python.2.2 ++ lc.1, lc.2)

/-! ### Spec-side family of version strings (for the version-validator claim)

The spec describes the accepted versions as `vN!x.y.z-pre.N+build.N` with
each optional part independently present or absent and no leading zeros
per release segment.  The definitions below build exactly those strings:
the optional leading 'v', an optional epoch `N!`, the release triple,
an optional pre-release introduced by '-' or '.' (an alphabetic label
with an optional `.N` tail) and an optional build suffix `+label` with an
optional `.N` tail.  They are written from the spec's words, to be
compared with `versionChars`, which is written from the source regex. -/

/-- A nonempty digit run (a number `N` of the spec's format). -/
def specDigits (l : List Char) : Bool := !l.isEmpty && l.all Char.isDigit

/-- A release segment: a number with no leading zero unless it is `0`. -/
def specSeg (l : List Char) : Bool :=
  !l.isEmpty && l.all Char.isDigit && (l.head? != some '0' || l.length == 1)

/-- A nonempty alphabetic label. -/
def specAlpha (l : List Char) : Bool := !l.isEmpty && l.all Char.isAlpha

/-- The optional `.N` numeric tail of a pre-release or build label. -/
def specNumTail : Option (List Char) → List Char
  | some d => '.' :: d
  | none => []

/-- The optional build suffix `+label(.N)?`. -/
def specBuild : Option (List Char × Option (List Char)) → List Char
  | some (lab, num) => '+' :: (lab ++ specNumTail num)
  | none => []

/-- The optional pre-release `(-|.)label(.N)?`, prepended to what follows. -/
def specPre : Option (Char × List Char × Option (List Char)) → List Char → List Char
  | some (sep, lab, num), rest => sep :: (lab ++ (specNumTail num ++ rest))
  | none, rest => rest

/-- The release triple `x.y.z`, prepended to what follows. -/
def specRelease (x y z rest : List Char) : List Char :=
  x ++ '.' :: (y ++ '.' :: (z ++ rest))

/-- The optional epoch `N!`, prepended to what follows. -/
def specEpoch : Option (List Char) → List Char → List Char
  | some e, rest => e ++ '!' :: rest
  | none, rest => rest

/-- A full version string of the spec's `vN!x.y.z-pre.N+build.N` family. -/
def specVersionString (useV : Bool) (epoch : Option (List Char)) (x y z : List Char)
    (pre : Option (Char × List Char × Option (List Char)))
    (build : Option (List Char × Option (List Char))) : List Char :=
  (if useV then ['v'] else [])
    ++ specEpoch epoch (specRelease x y z (specPre pre (specBuild build)))

/-! ### Lemmas about the pattern matchers -/

/-- `takeWhile`/`dropWhile` split a list exactly at the boundary between a
prefix satisfying `p` and a continuation whose head does not. -/
theorem takeWhile_dropWhile_app (p : Char → Bool) :
    ∀ (a b : List Char), (∀ c ∈ a, p c = true) →
      (∀ c, b.head? = some c → p c = false) →
      (a ++ b).takeWhile p = a ∧ (a ++ b).dropWhile p = b
  | [], b, _, hb => by
    cases b with
    | nil => exact ⟨rfl, rfl⟩
    | cons c r =>
      have := hb c rfl
      simp [List.takeWhile_cons, List.dropWhile_cons, this]
  | a :: as, b, ha, hb => by
    have h1 : p a = true := ha a (by simp)
    have ih := takeWhile_dropWhile_app p as b (fun c hc => ha c (by simp [hc])) hb
    simp [List.takeWhile_cons, List.dropWhile_cons, h1, ih.1, ih.2]

theorem digit_not_v {c : Char} (h : c.isDigit = true) : (c == 'v') = false := by
  rw [beq_eq_false_iff_ne]
  rintro rfl
  exact absurd h (by decide)

/-- `eatV` leaves a list alone when its head is a digit (or it is empty). -/
theorem eatV_no_v (l : List Char) (h : ∀ c, l.head? = some c → c.isDigit = true) :
    eatV l = l := by
  cases l with
  | nil => rfl
  | cons c r => simp [eatV, digit_not_v (h c rfl)]

theorem eatV_v (l : List Char) : eatV ('v' :: l) = l := by simp [eatV]

/-- `eatEpoch` consumes a nonempty digit run followed by '!'. -/
theorem eatEpoch_present (e rest : List Char) (hne : e ≠ [])
    (hd : ∀ c ∈ e, c.isDigit = true) :
    eatEpoch (e ++ '!' :: rest) = rest := by
  have hb : ∀ c, ('!' :: rest).head? = some c → c.isDigit = false := by
    rintro c hc
    cases hc
    decide
  obtain ⟨ht, hdrop⟩ := takeWhile_dropWhile_app Char.isDigit e ('!' :: rest) hd hb
  unfold eatEpoch
  rw [ht, hdrop]
  simp [hne]

/-- `eatEpoch` leaves a list alone when the first non-digit character is
not '!'. -/
theorem eatEpoch_absent (l : List Char)
    (h : ∀ c, (l.dropWhile Char.isDigit).head? = some c → c ≠ '!') :
    eatEpoch l = l := by
  unfold eatEpoch
  cases hd : l.dropWhile Char.isDigit with
  | nil => rfl
  | cons c r =>
    have hne := h c (by rw [hd]; rfl)
    simp [beq_eq_false_iff_ne.mpr hne]

/-- `eatSegment` consumes exactly one well-formed release segment. -/
theorem eatSegment_spec (x rest : List Char) (hx : specSeg x = true)
    (hrest : ∀ c, rest.head? = some c → c.isDigit = false) :
    eatSegment (x ++ rest) = some rest := by
  have hx' : (!x.isEmpty && x.all Char.isDigit && (x.head? != some '0' || x.length == 1)) = true := hx
  simp only [Bool.and_eq_true, Bool.or_eq_true] at hx'
  obtain ⟨⟨hne, hall⟩, hzero⟩ := hx'
  have hall' : ∀ c ∈ x, Char.isDigit c = true := by
    intro c hc
    exact List.all_eq_true.1 hall c hc
  obtain ⟨ht, hdrop⟩ := takeWhile_dropWhile_app Char.isDigit x rest hall' hrest
  unfold eatSegment
  rw [ht, hdrop]
  simp only [hne]
  have : (x.head? == some '0' && x.length != 1) = false := by
    rcases hzero with h | h
    · simp [Bool.not_eq_true'] at h ⊢
      simp [h]
    · simp at h ⊢
      omega
  simp [this]
  intro hempty
  simp [hempty] at hne

/-- A well-formed release triple is consumed exactly by `eatRelease`. -/
theorem eatRelease_spec (x y z rest : List Char)
    (hx : specSeg x = true) (hy : specSeg y = true) (hz : specSeg z = true)
    (hrest : ∀ c, rest.head? = some c → c.isDigit = false) :
    eatRelease (specRelease x y z rest) = some rest := by
  have hdot : ∀ (l : List Char), ∀ c, ('.' :: l).head? = some c → c.isDigit = false := by
    rintro l c hc
    cases hc
    decide
  unfold eatRelease specRelease
  rw [eatSegment_spec x ('.' :: (y ++ '.' :: (z ++ rest))) hx (hdot _), Option.some_bind,
    show eatDot ('.' :: (y ++ '.' :: (z ++ rest))) = some (y ++ '.' :: (z ++ rest)) from rfl,
    Option.some_bind, eatSegment_spec y ('.' :: (z ++ rest)) hy (hdot _), Option.some_bind,
    show eatDot ('.' :: (z ++ rest)) = some (z ++ rest) from rfl, Option.some_bind,
    eatSegment_spec z rest hz hrest]

theorem dropWhile_all (p : Char → Bool) (l : List Char) (h : ∀ c ∈ l, p c = true) :
    l.dropWhile p = [] := by
  have := takeWhile_dropWhile_app p l [] h (by rintro c ⟨⟩)
  simpa using this.2

/-- `eatNum` consumes a `.N` numeric tail. -/
theorem eatNum_dot (d rest : List Char) (hd : specDigits d = true)
    (hrest : ∀ c, rest.head? = some c → c.isDigit = false) :
    eatNum ('.' :: (d ++ rest)) = rest := by
  have hd' : (!d.isEmpty && d.all Char.isDigit) = true := hd
  simp only [Bool.and_eq_true] at hd'
  obtain ⟨hne, hall⟩ := hd'
  obtain ⟨d0, d', rfl⟩ : ∃ d0 d', d = d0 :: d' := by
    cases d with
    | nil => simp at hne
    | cons a b => exact ⟨a, b, rfl⟩
  have h0 : d0.isDigit = true := List.all_eq_true.1 hall d0 (by simp)
  have hdrop := (takeWhile_dropWhile_app Char.isDigit (d0 :: d') rest
    (fun c hc => List.all_eq_true.1 hall c hc) hrest).2
  simp only [List.cons_append] at hdrop
  simp only [eatNum, List.cons_append]
  simp [h0, hdrop]

/-- `eatNum` leaves a '+'-headed or empty list alone. -/
theorem eatNum_skip (l : List Char) (h : l = [] ∨ ∃ r, l = '+' :: r) : eatNum l = l := by
  rcases h with rfl | ⟨r, rfl⟩
  · rfl
  · simp [eatNum]

/-- `eatPre` consumes a pre-release `(-|.)label` and hands the rest to
`eatNum`. -/
theorem eatPre_present (sep : Char) (lab tail : List Char)
    (hsep : sep = '-' ∨ sep = '.') (hlab : specAlpha lab = true)
    (htail : ∀ c, tail.head? = some c → c.isAlpha = false) :
    eatPre (sep :: (lab ++ tail)) = some (eatNum tail) := by
  have hlab' : (!lab.isEmpty && lab.all Char.isAlpha) = true := hlab
  simp only [Bool.and_eq_true] at hlab'
  obtain ⟨hne, hall⟩ := hlab'
  obtain ⟨ht, hdrop⟩ := takeWhile_dropWhile_app Char.isAlpha lab tail
    (fun c hc => List.all_eq_true.1 hall c hc) htail
  have hcond : (sep == '-' || sep == '.') = true := by
    rcases hsep with rfl | rfl <;> decide
  simp only [eatPre]
  rw [ht, hdrop]
  simp [hcond, hne]
  intro hempty
  simp [hempty] at hne

/-- `eatPre` leaves a '+'-headed or empty list alone. -/
theorem eatPre_skip (l : List Char) (h : l = [] ∨ ∃ r, l = '+' :: r) :
    eatPre l = some l := by
  rcases h with rfl | ⟨r, rfl⟩
  · rfl
  · simp [eatPre]

/-- `eatBuildNum` consumes a final `.N` numeric tail. -/
theorem eatBuildNum_dot (d : List Char) (hd : specDigits d = true) :
    eatBuildNum ('.' :: d) = [] := by
  have hd' : (!d.isEmpty && d.all Char.isDigit) = true := hd
  simp only [Bool.and_eq_true] at hd'
  obtain ⟨hne, hall⟩ := hd'
  obtain ⟨d0, d', rfl⟩ : ∃ d0 d', d = d0 :: d' := by
    cases d with
    | nil => simp at hne
    | cons a b => exact ⟨a, b, rfl⟩
  have h0 : d0.isDigit = true := List.all_eq_true.1 hall d0 (by simp)
  have hdrop := dropWhile_all Char.isDigit (d0 :: d') (fun c hc => List.all_eq_true.1 hall c hc)
  unfold eatBuildNum
  simp [h0, hdrop]

/-- `eatBuild` consumes a final build suffix `+label(.N)?` entirely. -/
theorem eatBuild_present (lab : List Char) (num : Option (List Char))
    (hlab : specAlpha lab = true)
    (hnum : ∀ d, num = some d → specDigits d = true) :
    eatBuild ('+' :: (lab ++ specNumTail num)) = some [] := by
  have hlab' : (!lab.isEmpty && lab.all Char.isAlpha) = true := hlab
  simp only [Bool.and_eq_true] at hlab'
  obtain ⟨hne, hall⟩ := hlab'
  have htail : ∀ c, (specNumTail num).head? = some c → c.isAlpha = false := by
    rcases num with _ | d
    · rintro c ⟨⟩
    · rintro c hc
      simp [specNumTail] at hc
      subst hc
      decide
  obtain ⟨ht, hdrop⟩ := takeWhile_dropWhile_app Char.isAlpha lab (specNumTail num)
    (fun c hc => List.all_eq_true.1 hall c hc) htail
  simp only [eatBuild]
  rw [ht, hdrop]
  have hrest : eatBuildNum (specNumTail num) = [] := by
    rcases num with _ | d
    · rfl
    · exact eatBuildNum_dot d (hnum d rfl)
  simp [hne, hrest]
  intro hempty
  simp [hempty] at hne

/-- Every version string of the spec's family is accepted by the source's
`VERSION_PATTERN`. -/
theorem specVersionString_accepted (useV : Bool) (epoch : Option (List Char))
    (x y z : List Char) (pre : Option (Char × List Char × Option (List Char)))
    (build : Option (List Char × Option (List Char)))
    (hx : specSeg x = true) (hy : specSeg y = true) (hz : specSeg z = true)
    (hepoch : ∀ e, epoch = some e → specDigits e = true)
    (hpre : ∀ sep lab num, pre = some (sep, lab, num) →
      (sep = '-' ∨ sep = '.') ∧ specAlpha lab = true ∧ ∀ d, num = some d → specDigits d = true)
    (hbuild : ∀ lab num, build = some (lab, num) →
      specAlpha lab = true ∧ ∀ d, num = some d → specDigits d = true) :
    versionChars (specVersionString useV epoch x y z pre build) = true := by
  have hxne : x ≠ [] := by
    have hx' : (!x.isEmpty && x.all Char.isDigit && (x.head? != some '0' || x.length == 1)) = true := hx
    simp only [Bool.and_eq_true] at hx'
    intro he
    simp [he] at hx'
  have hxdig : ∀ c ∈ x, c.isDigit = true := by
    have hx' : (!x.isEmpty && x.all Char.isDigit && (x.head? != some '0' || x.length == 1)) = true := hx
    simp only [Bool.and_eq_true] at hx'
    exact fun c hc => List.all_eq_true.1 hx'.1.2 c hc
  -- the tail after the release triple: starts with the pre-release
  -- separator, the build '+', or is empty, hence never with a digit
  set D := specBuild build with hD
  set A := specPre pre D with hA
  have hDshape : D = [] ∨ ∃ r, D = '+' :: r := by
    rcases build with _ | ⟨lab, num⟩
    · exact Or.inl rfl
    · exact Or.inr ⟨lab ++ specNumTail num, rfl⟩
  have hAhead : ∀ c, A.head? = some c → c.isDigit = false := by
    rcases pre with _ | ⟨sep, lab, num⟩
    · intro c hc
      rcases hDshape with hnil | ⟨r, hr⟩
      · rw [hA, specPre, hnil] at hc
        cases hc
      · rw [hA, specPre, hr] at hc
        cases hc
        decide
    · intro c hc
      obtain ⟨hsep, _, _⟩ := hpre sep lab num rfl
      rw [hA, specPre] at hc
      cases hc
      rcases hsep with rfl | rfl <;> decide
  -- the whole string after the optional 'v': epoch then release
  set B := specRelease x y z A with hB
  have hBhead : ∀ c, B.head? = some c → c.isDigit = true := by
    intro c hc
    obtain ⟨x0, x', hx0⟩ : ∃ x0 x', x = x0 :: x' := by
      cases x with
      | nil => exact absurd rfl hxne
      | cons a b => exact ⟨a, b, rfl⟩
    rw [hB, specRelease, hx0] at hc
    simp only [List.cons_append, List.head?_cons, Option.some.injEq] at hc
    rw [← hc]
    exact hxdig x0 (by rw [hx0]; simp)
  have hrel : eatRelease B = some A := eatRelease_spec x y z A hx hy hz hAhead
  set C := specEpoch epoch B with hC
  have hepochstep : eatEpoch C = B := by
    rcases epoch with _ | e
    · rw [hC, specEpoch]
      apply eatEpoch_absent
      intro c hc
      rw [hB, specRelease] at hc
      have hdot : ∀ cc, ('.' :: (y ++ '.' :: (z ++ A))).head? = some cc → Char.isDigit cc = false := by
        rintro cc hcc
        cases hcc
        decide
      rw [(takeWhile_dropWhile_app Char.isDigit x ('.' :: (y ++ '.' :: (z ++ A))) hxdig hdot).2] at hc
      cases hc
      decide
    · have he := hepoch e rfl
      have he' : (!e.isEmpty && e.all Char.isDigit) = true := he
      simp only [Bool.and_eq_true] at he'
      rw [hC, specEpoch]
      apply eatEpoch_present
      · intro hne
        simp [hne] at he'
      · exact fun c hc => List.all_eq_true.1 he'.2 c hc
  have hpst : eatPre A = some D := by
    rcases pre with _ | ⟨sep, lab, num⟩
    · rw [hA, specPre]
      exact eatPre_skip D hDshape
    · obtain ⟨hsep, hlab, hnum⟩ := hpre sep lab num rfl
      have htail : ∀ c, (specNumTail num ++ D).head? = some c → c.isAlpha = false := by
        rcases num with _ | d
        · simp only [specNumTail, List.nil_append]
          intro c hc
          rcases hDshape with hnil | ⟨r, hr⟩
          · rw [hnil] at hc
            cases hc
          · rw [hr] at hc
            cases hc
            decide
        · simp only [specNumTail, List.cons_append]
          rintro c hc
          cases hc
          decide
      rw [hA, specPre, eatPre_present sep lab (specNumTail num ++ D) hsep hlab htail]
      have hnumred : eatNum (specNumTail num ++ D) = D := by
        rcases num with _ | d
        · simp only [specNumTail, List.nil_append]
          exact eatNum_skip D hDshape
        · simp only [specNumTail, List.cons_append]
          have hDhead : ∀ c, D.head? = some c → c.isDigit = false := by
            intro c hc
            rcases hDshape with hnil | ⟨r, hr⟩
            · rw [hnil] at hc
              cases hc
            · rw [hr] at hc
              cases hc
              decide
          exact eatNum_dot d D (hnum d rfl) hDhead
      rw [hnumred]
  have hbst : eatBuild D = some [] := by
    rcases build with _ | ⟨lab, num⟩
    · rw [hD]
      rfl
    · obtain ⟨hlab, hnum⟩ := hbuild lab num rfl
      rw [hD, specBuild]
      exact eatBuild_present lab num hlab hnum
  have hvred : eatV ((if useV then ['v'] else []) ++ C) = C := by
    cases useV with
    | true =>
      show eatV ('v' :: C) = C
      exact eatV_v C
    | false =>
      show eatV C = C
      rw [hC]
      rcases epoch with _ | e
      · rw [specEpoch]
        exact eatV_no_v B hBhead
      · have he := hepoch e rfl
        have he' : (!e.isEmpty && e.all Char.isDigit) = true := he
        simp only [Bool.and_eq_true] at he'
        rw [specEpoch]
        apply eatV_no_v
        intro c hc
        obtain ⟨e0, e', he0⟩ : ∃ e0 e', e = e0 :: e' := by
          cases e with
          | nil => simp at he'
          | cons a b => exact ⟨a, b, rfl⟩
        rw [he0] at hc
        simp only [List.cons_append, List.head?_cons, Option.some.injEq] at hc
        rw [← hc]
        exact List.all_eq_true.1 he'.2 e0 (by rw [he0]; simp)
  -- assemble the chain
  unfold specVersionString
  rw [← hD, ← hA, ← hB, ← hC]
  unfold versionChars
  rw [hvred, hepochstep, hrel]
  simp [hpst, hbst]

/-! ### Lemmas about the tool-name pattern -/

/-- The separators `.`, `_`, `-` are not alphanumeric. -/
theorem sep_not_alnum {c : Char} (h : (c == '.' || c == '_' || c == '-') = true) :
    isAsciiAlnum c = false := by
  simp only [Bool.or_eq_true, beq_iff_eq] at h
  rcases h with (rfl | rfl) | rfl <;> decide

/-- An alphanumeric character is in the name class. -/
theorem alnum_isNameChar {c : Char} (h : isAsciiAlnum c = true) : isNameChar c = true := by
  simp [isNameChar, h]

theorem classStarAlnum_of : ∀ l : List Char, l ≠ [] →
    (∀ c ∈ l, isNameChar c = true) →
    (∀ c, l.getLast? = some c → isAsciiAlnum c = true) →
    classStarAlnum l = true
  | [], h, _, _ => absurd rfl h
  | [c], _, _, hlast => by
    simp only [classStarAlnum]
    exact hlast c rfl
  | c :: c2 :: r, _, hall, hlast => by
    simp only [classStarAlnum, Bool.and_eq_true]
    refine ⟨hall c (by simp), classStarAlnum_of (c2 :: r) (by simp) ?_ ?_⟩
    · exact fun d hd => hall d (by simp [hd])
    · intro d hd
      exact hlast d (by rw [List.getLast?_cons_cons]; exact hd)

theorem classStarAlnum_chars : ∀ l : List Char, classStarAlnum l = true →
    ∀ c ∈ l, isNameChar c = true
  | [], h, _, hc => by cases hc
  | [c], h, d, hd => by
    simp only [List.mem_singleton] at hd
    subst hd
    exact alnum_isNameChar (by simpa [classStarAlnum] using h)
  | c :: c2 :: r, h, d, hd => by
    simp only [classStarAlnum, Bool.and_eq_true] at h
    rcases List.mem_cons.1 hd with rfl | hd'
    · exact h.1
    · exact classStarAlnum_chars (c2 :: r) h.2 d hd'

theorem classStarAlnum_last : ∀ l : List Char, classStarAlnum l = true →
    ∀ c, l.getLast? = some c → isAsciiAlnum c = true
  | [], h, _, hc => by cases hc
  | [c], h, d, hd => by
    cases hd
    simpa [classStarAlnum] using h
  | c :: c2 :: r, h, d, hd => by
    simp only [classStarAlnum, Bool.and_eq_true] at h
    rw [List.getLast?_cons_cons] at hd
    exact classStarAlnum_last (c2 :: r) h.2 d hd

/-- Every character of a matching tool name is in the name class. -/
theorem toolNameChars_chars : ∀ l : List Char, toolNameChars l = true →
    ∀ c ∈ l, isNameChar c = true
  | [], h, _, hc => by cases hc
  | [c], h, d, hd => by
    simp only [List.mem_singleton] at hd
    subst hd
    exact alnum_isNameChar (by simpa [toolNameChars] using h)
  | c :: c2 :: r, h, d, hd => by
    simp only [toolNameChars, Bool.and_eq_true] at h
    rcases List.mem_cons.1 hd with rfl | hd'
    · exact alnum_isNameChar h.1.1
    · rcases List.mem_cons.1 hd' with rfl | hd''
      · exact h.1.2
      · exact classStarAlnum_chars r h.2 d hd''

/-- The first character of a matching tool name is alphanumeric. -/
theorem toolNameChars_head : ∀ l : List Char, toolNameChars l = true →
    ∀ c, l.head? = some c → isAsciiAlnum c = true
  | [], h, _, hc => by cases hc
  | [c], h, d, hd => by
    cases hd
    simpa [toolNameChars] using h
  | c :: c2 :: r, h, d, hd => by
    simp only [toolNameChars, Bool.and_eq_true] at h
    cases hd
    exact h.1.1

/-- The last character of a matching tool name is alphanumeric. -/
theorem toolNameChars_last : ∀ l : List Char, toolNameChars l = true →
    ∀ c, l.getLast? = some c → isAsciiAlnum c = true
  | [], h, _, hc => by cases hc
  | [c], h, d, hd => by
    cases hd
    simpa [toolNameChars] using h
  | c :: c2 :: r, h, d, hd => by
    simp only [toolNameChars, Bool.and_eq_true] at h
    rw [List.getLast?_cons_cons] at hd
    cases r with
    | nil => simp [classStarAlnum] at h
    | cons r0 r' =>
      rw [List.getLast?_cons_cons] at hd
      exact classStarAlnum_last (r0 :: r') h.2 d hd

/-- A tool name of length one or at least three, made of name-class
characters with alphanumeric first and last character, matches. -/
theorem toolNameChars_accepts : ∀ l : List Char,
    l.length = 1 ∨ 3 ≤ l.length →
    (∀ c ∈ l, isNameChar c = true) →
    (∀ c, l.head? = some c → isAsciiAlnum c = true) →
    (∀ c, l.getLast? = some c → isAsciiAlnum c = true) →
    toolNameChars l = true
  | [], hlen, _, _, _ => by rcases hlen with h | h <;> simp at h
  | [c], _, _, hhead, _ => by
    simp only [toolNameChars]
    exact hhead c rfl
  | [c, c2], hlen, _, _, _ => by rcases hlen with h | h <;> simp at h
  | c :: c2 :: r0 :: r', hlen, hall, hhead, hlast => by
    simp only [toolNameChars, Bool.and_eq_true]
    refine ⟨⟨hhead c rfl, hall c2 (by simp)⟩, ?_⟩
    apply classStarAlnum_of (r0 :: r') (by simp)
    · exact fun d hd => hall d (by simp [hd])
    · intro d hd
      apply hlast
      rw [List.getLast?_cons_cons, List.getLast?_cons_cons]
      exact hd

/-- Every two-character string fails the tool-name pattern. -/
theorem toolNameChars_two (c c2 : Char) : toolNameChars [c, c2] = false := by
  simp [toolNameChars, classStarAlnum]

/-! ### Lemmas about the main loop -/

/-- The decision engine never logs the python force-install warning. -/
theorem check_no_force_warning (name version : String) (force_install : Bool)
    (installed_tools : List (String × String)) :
    LogMsg.pythonForceNotSupported ∉ (check_tool_installed name version force_install installed_tools).2 := by
  unfold check_tool_installed
  rcases installed_tools.lookup name with _ | iv
  · simp
  · by_cases h1 : iv = ""
    · simp [h1]
    · by_cases h2 : iv = version
      · subst h2
        simp [h1]
      · simp [h1, h2]

/-- `run_install_tool` never logs the python force-install warning. -/
theorem run_install_no_force_warning (versioned_tool : String)
    (prepared_command additional_args : List String) :
    LogMsg.pythonForceNotSupported ∉ (run_install_tool versioned_tool prepared_command additional_args).2 := by
  simp [run_install_tool]

/-- The per-tool loop of `main` never logs the python force-install
warning: that message is logged only during one-time command
preparation. -/
theorem main_loop_no_force_warning (force_install : Bool)
    (installed_rust_tools : List (String × String))
    (prepared_command_rust prepared_command_python : Option (List String)) :
    ∀ (tools : List ToolInfo) (logs : List LogMsg) (cmds : List (String × List String)),
      main_loop force_install installed_rust_tools prepared_command_rust prepared_command_python tools
        = some (logs, cmds) →
      LogMsg.pythonForceNotSupported ∉ logs := by
  intro tools
  induction tools with
  | nil =>
    intro logs cmds h
    simp only [main_loop, Option.some.injEq, Prod.mk.injEq] at h
    rw [← h.1]
    simp
  | cons tool rest ih =>
    intro logs cmds h
    simp only [main_loop] at h
    split at h
    · -- crate branch
      split at h
      · rw [Option.map_eq_some'] at h
        obtain ⟨⟨logs', cmds'⟩, hrec, heq⟩ := h
        cases heq
        simp only [List.mem_append]
        rintro (hc | hc)
        · exact check_no_force_warning _ _ _ _ hc
        · exact ih _ _ hrec hc
      · split at h
        · cases h
        · rw [Option.map_eq_some'] at h
          obtain ⟨⟨logs', cmds'⟩, hrec, heq⟩ := h
          cases heq
          simp only [List.mem_append]
          rintro ((hc | hc) | hc)
          · exact check_no_force_warning _ _ _ _ hc
          · exact run_install_no_force_warning _ _ _ hc
          · exact ih _ _ hrec hc
    · split at h
      · -- pypi branch
        split at h
        · rw [Option.map_eq_some'] at h
          obtain ⟨⟨logs', cmds'⟩, hrec, heq⟩ := h
          cases heq
          simp only [List.mem_append]
          rintro ((hc | hc) | hc)
          · revert hc
            split <;> simp
          · exact check_no_force_warning _ _ _ _ hc
          · exact ih _ _ hrec hc
        · split at h
          · cases h
          · rw [Option.map_eq_some'] at h
            obtain ⟨⟨logs', cmds'⟩, hrec, heq⟩ := h
            cases heq
            simp only [List.mem_append]
            rintro (((hc | hc) | hc) | hc)
            · revert hc
              split <;> simp
            · exact check_no_force_warning _ _ _ _ hc
            · exact run_install_no_force_warning _ _ _ hc
            · exact ih _ _ hrec hc
      · -- unsupported source
        rw [Option.map_eq_some'] at h
        obtain ⟨⟨logs', cmds'⟩, hrec, heq⟩ := h
        cases heq
        simp only [List.mem_cons]
        rintro (hc | hc)
        · cases hc
        · exact ih _ _ hrec hc

/-- A versioned python identifier `name==version` is never the force
flag: it contains '='. -/
theorem versioned_ne_force (n v : String) : n ++ "==" ++ v ≠ "--force" := by
  intro h
  have hd := congrArg String.data h
  simp only [String.data_append] at hd
  have h1 : ('=' : Char) ∈ (['-', '-', 'f', 'o', 'r', 'c', 'e'] : List Char) := by
    rw [← hd]
    refine List.mem_append.2 (Or.inl (List.mem_append.2 (Or.inr ?_)))
    decide
  exact absurd h1 (by decide)

/-- Every pypi-tagged command the loop builds is the prepared python
command followed by the `name==version` identifier, so it never contains
the rust force flag when the prepared command does not. -/
theorem main_loop_pypi_no_force (force_install : Bool)
    (installed_rust_tools : List (String × String))
    (prepared_command_rust : Option (List String)) (pp : List String)
    (hpp : "--force" ∉ pp) :
    ∀ (tools : List ToolInfo) (logs : List LogMsg) (cmds : List (String × List String)),
      main_loop force_install installed_rust_tools prepared_command_rust (some pp) tools
        = some (logs, cmds) →
      ∀ src c, (src, c) ∈ cmds → src = "pypi" → "--force" ∉ c := by
  intro tools
  induction tools with
  | nil =>
    intro logs cmds h
    simp only [main_loop, Option.some.injEq, Prod.mk.injEq] at h
    rw [← h.2]
    simp
  | cons tool rest ih =>
    intro logs cmds h
    simp only [main_loop] at h
    split at h
    · -- crate branch
      split at h
      · rw [Option.map_eq_some'] at h
        obtain ⟨⟨l', c'⟩, hrec, heq⟩ := h
        cases heq
        exact ih _ _ hrec
      · split at h
        · cases h
        · rw [Option.map_eq_some'] at h
          obtain ⟨⟨l', c'⟩, hrec, heq⟩ := h
          cases heq
          intro src c hc hsrc
          rcases List.mem_cons.1 hc with heq2 | hc'
          · rw [Prod.mk.injEq] at heq2
            rw [hsrc] at heq2
            exact absurd heq2.1.symm (by decide)
          · exact ih _ _ hrec src c hc' hsrc
    · split at h
      · -- pypi branch
        split at h
        · rw [Option.map_eq_some'] at h
          obtain ⟨⟨l', c'⟩, hrec, heq⟩ := h
          cases heq
          exact ih _ _ hrec
        · -- the prepared python command is literally `some pp` here, so the
          -- source's match on it reduces away
          rw [Option.map_eq_some'] at h
          obtain ⟨⟨l', c'⟩, hrec, heq⟩ := h
          cases heq
          intro src c hc hsrc
          rcases List.mem_cons.1 hc with heq2 | hc'
          · rw [Prod.mk.injEq] at heq2
            rw [heq2.2]
            simp only [run_install_tool]
            intro hmem
            simp only [List.append_nil, List.mem_append, List.mem_singleton] at hmem
            rcases hmem with hmem | hmem
            · exact hpp hmem
            · exact versioned_ne_force tool.name tool.version hmem.symm
          · exact ih _ _ hrec src c hc' hsrc
      · rw [Option.map_eq_some'] at h
        obtain ⟨⟨l', c'⟩, hrec, heq⟩ := h
        cases heq
        exact ih _ _ hrec

/-- Preparing the rust command never logs the python force-install
warning. -/
theorem prepare_rust_no_force_warning (force_install : Bool) (install_method : String)
    (binstall_on_path : Bool) :
    LogMsg.pythonForceNotSupported ∉ (prepare_rust_install_command force_install install_method binstall_on_path).2 := by
  simp only [prepare_rust_install_command]
  split <;> simp

/-- For a valid python install method, preparation succeeds with a
force-free command and, when forcing, logs the warning exactly once. -/
theorem prepare_python_valid (install_method : String) (uv_on_path force_install : Bool)
    (hm : install_method = "prefer-uv" ∨ install_method = "uv" ∨ install_method = "pip") :
    ∃ c, (prepare_python_install_command force_install install_method uv_on_path false).1 = some c
      ∧ "--force" ∉ c
      ∧ (prepare_python_install_command force_install install_method uv_on_path false).2.2
          = (if force_install then [LogMsg.pythonForceNotSupported] else []) := by
  rcases hm with rfl | rfl | rfl <;> cases uv_on_path <;> cases force_install <;>
    exact ⟨_, rfl, by decide, rfl⟩

/-- Closed form of the manifest read: all-or-nothing.  The read yields
the full ordered record list exactly when every entry passes all five
validations, and the failure sentinel otherwise. -/
theorem read_tools_eq (entries : List (String × Toml)) :
    read_tools entries
      = if entries.all entryValid = true then some (entries.map entryRecord) else none := by
  induction entries with
  | nil => rfl
  | cons e rest ih =>
    obtain ⟨n, v⟩ := e
    by_cases h1 : (validate_tool_name n).1 = true
    · by_cases h2 : (validate_details (some n) (some v)).1 = true
      · by_cases h3 : ((validate_version (some n) (tomlGet v "version")).1
            && (validate_source (some n) (tomlGet v "source")).1
            && (validate_locked (some n) (tomlGet v "locked")).1) = true
        · have hv : entryValid (n, v) = true := by
            simp only [entryValid, Bool.and_eq_true] at h3 ⊢
            exact ⟨⟨⟨⟨h1, h2⟩, h3.1.1⟩, h3.1.2⟩, h3.2⟩
          simp only [read_tools, h1, h2, h3, Bool.not_true, Bool.false_eq_true, if_false, if_true]
          rw [ih]
          by_cases h4 : rest.all entryValid = true
          · simp [h4, List.all_cons, hv, entryRecord]
          · simp [h4, List.all_cons, hv]
        · have hv : entryValid (n, v) = false := by
            rw [Bool.eq_false_iff]
            intro hiv
            apply h3
            simp only [entryValid, Bool.and_eq_true] at hiv
            simp only [Bool.and_eq_true]
            exact ⟨⟨hiv.1.1.2, hiv.1.2⟩, hiv.2⟩
          simp only [read_tools, h1, h2, h3, Bool.not_true, Bool.false_eq_true, if_false, if_true]
          simp [List.all_cons, hv]
      · have hv : entryValid (n, v) = false := by
          simp only [entryValid]
          rw [Bool.not_eq_true] at h2
          simp [h2]
        simp only [read_tools, h1, h2]
        simp [List.all_cons, hv]
    · have hv : entryValid (n, v) = false := by
        simp only [entryValid]
        rw [Bool.not_eq_true] at h1
        simp [h1]
      simp only [read_tools, h1]
      simp [List.all_cons, hv]

/-! ### The claims -/

/-- C1: the spec says a version-mismatched tool is reinstalled iff
`forceInstall` — skip when false, install when true.  The code's
`check_tool_installed` returns `force_install` on a mismatch, but its
caller `main` treats a `true` return as "skip" (`continue`), so with
installed `1.0.0`, desired `2.0.0` and forceInstall=false the tool IS
reinstalled, and with forceInstall=true it is SKIPPED — the exact inverse
of the claim (and of the function's own docstring and its
"Reinstalling..." log text).  This theorem evaluates the code at the
claim's input, at the decision level and at the whole-run level. -/
theorem c1_mismatch_decision_eval :
    (check_tool_installed "tool" "2.0.0" false [("tool", "1.0.0")]).1 = false
    ∧ (check_tool_installed "tool" "2.0.0" true [("tool", "1.0.0")]).1 = true
    ∧ (run_main false "install" "pip" false false [("tool", "1.0.0")] []
          [{ name := "tool", version := "2.0.0", source := "crate", locked := false }]).map Prod.snd
        = some [("crate", ["cargo", "install", "tool@2.0.0"])]
    ∧ (run_main true "install" "pip" false false [("tool", "1.0.0")] []
          [{ name := "tool", version := "2.0.0", source := "crate", locked := false }]).map Prod.snd
        = some [] :=
  ⟨rfl, rfl, rfl, rfl⟩

/-- C2: the spec says pypi tools are decided against the python
installed-map.  The code's pypi branch assigns
`installed_tools = installed_rust_tools` (entrypoint.py line 476), so the
python listing never influences the run at all (first conjunct), and a
pypi tool recorded at its desired version in the python listing is still
installed rather than skipped (second conjunct evaluates that run). -/
theorem c2_pypi_map_eval :
    (∀ (force_install : Bool) (rust_install_method python_install_method : String)
        (binstall_on_path uv_on_path : Bool)
        (installed_rust_tools pyA pyB : List (String × String)) (tools : List ToolInfo),
      run_main force_install rust_install_method python_install_method binstall_on_path uv_on_path
          installed_rust_tools pyA tools
        = run_main force_install rust_install_method python_install_method binstall_on_path uv_on_path
          installed_rust_tools pyB tools)
    ∧ (run_main false "install" "pip" false false [] [("foo", "1.0.0")]
          [{ name := "foo", version := "1.0.0", source := "pypi", locked := false }]).map Prod.snd
        = some [("pypi", ["pip", "install", "foo==1.0.0"])] :=
  ⟨fun _ _ _ _ _ _ _ _ _ => rfl, rfl⟩

/-- C3: for every rust install invocation the built command is the base
command (with `--no-confirm` exactly for the binstall backend), then
`--force` iff forceInstall, then `--locked` iff the record requests it,
then the `name@version` identifier last; in particular a locked,
unforced binstall install of install_tool_rs 1.1.4 yields exactly
`["cargo","binstall","--no-confirm","--locked","install_tool_rs@1.1.4"]`. -/
theorem c3_rust_command_order
    (force_install locked binstall_on_path : Bool)
    (install_method name version : String) (prepared : List String)
    (h : (prepare_rust_install_command force_install install_method binstall_on_path).1
      = some prepared) :
    (run_install_tool (name ++ "@" ++ version) prepared (if locked then ["--locked"] else [])).1
      = (if install_method = "binstall" ∨ (install_method = "prefer-binstall" ∧ binstall_on_path = true)
            then ["cargo", "binstall", "--no-confirm"] else ["cargo", "install"])
          ++ (if force_install then ["--force"] else [])
          ++ (if locked then ["--locked"] else [])
          ++ [name ++ "@" ++ version]
    ∧ (prepare_rust_install_command false "binstall" binstall_on_path).1
        = some ["cargo", "binstall", "--no-confirm"]
    ∧ (run_install_tool "install_tool_rs@1.1.4" ["cargo", "binstall", "--no-confirm"] ["--locked"]).1
        = ["cargo", "binstall", "--no-confirm", "--locked", "install_tool_rs@1.1.4"] := by
  refine ⟨?_, rfl, rfl⟩
  have hm : install_method = "prefer-binstall" ∨ install_method = "binstall"
      ∨ install_method = "install" := by
    by_contra hc
    push_neg at hc
    simp [prepare_rust_install_command, hc.1, hc.2.1, hc.2.2] at h
  rcases hm with rfl | rfl | rfl <;>
    cases binstall_on_path <;> cases force_install <;> cases locked <;>
      (simp only [prepare_rust_install_command] at h; simp at h; subst h;
       simp [run_install_tool])

/-- C3 witness: the theorem applied to the locked binstall example. -/
theorem c3_rust_command_order_witness :
    (prepare_rust_install_command false "binstall" false).1
        = some ["cargo", "binstall", "--no-confirm"]
    ∧ (run_install_tool ("install_tool_rs" ++ "@" ++ "1.1.4") ["cargo", "binstall", "--no-confirm"]
          (if true then ["--locked"] else [])).1
      = (if ("binstall" : String) = "binstall" ∨ (("binstall" : String) = "prefer-binstall" ∧ false = true)
            then ["cargo", "binstall", "--no-confirm"] else ["cargo", "install"])
          ++ (if false then ["--force"] else [])
          ++ (if true then ["--locked"] else [])
          ++ ["install_tool_rs" ++ "@" ++ "1.1.4"] :=
  ⟨rfl, (c3_rust_command_order false true false "binstall" "install_tool_rs" "1.1.4"
      ["cargo", "binstall", "--no-confirm"] rfl).1⟩

/-- C4 counterexample: the claim says a bare version string (the legacy
shorthand) is accepted and yields a ToolRecord; the code rejects it.  At
the explicit entry `tool = "1.2.3"` — a valid name and a valid version —
the read returns the failure sentinel, not a record list. -/
theorem c4_bare_version_cex :
    read_tools [("tool", Toml.str "1.2.3")] = none
    ∧ toolNameMatch "tool" = true
    ∧ versionMatch "1.2.3" = true :=
  ⟨rfl, by decide, by decide⟩

/-- C4 amended: a section entry whose value is a bare version string is
rejected, not accepted: `validate_details` fails with the message
`{tool_name}: Tool details must be dict` and the whole read returns the
failure sentinel. -/
theorem c4_bare_version_amended :
    (∀ (n s : String), validate_details (some n) (some (Toml.str s))
        = (false, [n ++ ": " ++ "Tool details must be dict"]))
    ∧ ∀ entries : List (String × Toml),
        (∃ e ∈ entries, ∃ s, e.2 = Toml.str s) → read_tools entries = none := by
  constructor
  · intro n s
    rfl
  · intro entries
    induction entries with
    | nil =>
      rintro ⟨e, he, _⟩
      cases he
    | cons e rest ih =>
      rintro ⟨f, hf, s, hs⟩
      obtain ⟨n, v⟩ := e
      rcases List.mem_cons.1 hf with rfl | hf'
      · simp only at hs
        subst hs
        simp only [read_tools]
        by_cases h1 : (validate_tool_name n).1 = true
        · simp [h1, validate_details]
        · simp [h1]
      · have hnone := ih ⟨f, hf', s, hs⟩
        simp only [read_tools, hnone]
        split
        · rfl
        · split
          · rfl
          · split
            · rfl
            · rfl

/-- C4 amended witness: the amended theorem applied to the concrete
shorthand entry. -/
theorem c4_bare_version_amended_witness :
    read_tools [("tool", Toml.str "1.2.3")] = none :=
  c4_bare_version_amended.2 [("tool", Toml.str "1.2.3")]
    ⟨("tool", Toml.str "1.2.3"), List.Mem.head _, "1.2.3", rfl⟩

/-- C5 counterexample: the claim says every string of name-class
characters with alphanumeric first and last character is accepted, but
the two-character string "ab" — all alphanumeric — is rejected: the
pattern's optional group `(?:[a-zA-Z0-9._-]+[a-zA-Z0-9])?` needs at least
two characters after the first, so no two-character string can match. -/
theorem c5_two_char_name_cex :
    toolNameMatch "ab" = false
    ∧ "ab".data.all isNameChar = true
    ∧ "ab".data.head? = some 'a' ∧ isAsciiAlnum 'a' = true
    ∧ "ab".data.getLast? = some 'b' ∧ isAsciiAlnum 'b' = true := by
  decide

/-- C5 amended: the name validator accepts every string of length one or
at least three whose characters lie in `[a-zA-Z0-9._-]` and whose first
and last characters are alphanumeric; it rejects every string containing
a character outside that class, every string starting or ending with
'.', '_' or '-', and additionally every string of length exactly two. -/
theorem c5_name_validator_amended (s : String) :
    ((s.data.length = 1 ∨ 3 ≤ s.data.length) →
      (∀ c ∈ s.data, isNameChar c = true) →
      (∀ c, s.data.head? = some c → isAsciiAlnum c = true) →
      (∀ c, s.data.getLast? = some c → isAsciiAlnum c = true) →
      toolNameMatch s = true)
    ∧ ((∃ c ∈ s.data, isNameChar c = false) → toolNameMatch s = false)
    ∧ (∀ c, s.data.head? = some c → (c == '.' || c == '_' || c == '-') = true →
        toolNameMatch s = false)
    ∧ (∀ c, s.data.getLast? = some c → (c == '.' || c == '_' || c == '-') = true →
        toolNameMatch s = false)
    ∧ (s.data.length = 2 → toolNameMatch s = false) := by
  refine ⟨?_, ?_, ?_, ?_, ?_⟩
  · exact fun hlen hall hhead hlast => toolNameChars_accepts s.data hlen hall hhead hlast
  · rintro ⟨c, hc, hfalse⟩
    cases htn : toolNameMatch s
    · rfl
    · have := toolNameChars_chars s.data htn c hc
      simp [hfalse] at this
  · intro c hhead hsep
    cases htn : toolNameMatch s
    · rfl
    · have := toolNameChars_head s.data htn c hhead
      simp [sep_not_alnum hsep] at this
  · intro c hlast hsep
    cases htn : toolNameMatch s
    · rfl
    · have := toolNameChars_last s.data htn c hlast
      simp [sep_not_alnum hsep] at this
  · intro hlen
    obtain ⟨a, b, hd⟩ := List.length_eq_two.1 hlen
    show toolNameChars s.data = false
    rw [hd]
    exact toolNameChars_two a b

/-- C5 amended witness: accepts "cargo-binstall", rejects "-invalid_tool". -/
theorem c5_name_validator_amended_witness :
    toolNameMatch "cargo-binstall" = true ∧ toolNameMatch "-invalid_tool" = false :=
  ⟨(c5_name_validator_amended "cargo-binstall").1 (by decide) (by decide)
      (by intro c hc; injection hc with h; rw [← h]; decide)
      (by intro c hc; injection hc with h; rw [← h]; decide),
   (c5_name_validator_amended "-invalid_tool").2.2.1 '-' rfl (by decide)⟩

/-- C6: the version validator accepts every string of the spec's
`vN!x.y.z-pre.N+build.N` family (leading 'v', epoch, pre-release and
build parts independently present or absent, release segments without
leading zeros) — in particular "1!1.2.3" and "1.2.3.dev" — and rejects
"Wow" with exactly the message
`Version doesn't match semver or PEP440 scheme: 'Wow'`
(prefixed by the tool name when one is given). -/
theorem c6_version_validator :
    (∀ (useV : Bool) (epoch : Option (List Char)) (x y z : List Char)
        (pre : Option (Char × List Char × Option (List Char)))
        (build : Option (List Char × Option (List Char))),
      specSeg x = true → specSeg y = true → specSeg z = true →
      (∀ e, epoch = some e → specDigits e = true) →
      (∀ sep lab num, pre = some (sep, lab, num) →
        (sep = '-' ∨ sep = '.') ∧ specAlpha lab = true
          ∧ ∀ d, num = some d → specDigits d = true) →
      (∀ lab num, build = some (lab, num) →
        specAlpha lab = true ∧ ∀ d, num = some d → specDigits d = true) →
      versionMatch (String.mk (specVersionString useV epoch x y z pre build)) = true)
    ∧ versionMatch "1!1.2.3" = true
    ∧ versionMatch "1.2.3.dev" = true
    ∧ versionMatch "Wow" = false
    ∧ validate_version none (some (Toml.str "Wow"))
        = (false, ["Version doesn't match semver or PEP440 scheme: 'Wow'"])
    ∧ (∀ t : String, validate_version (some t) (some (Toml.str "Wow"))
        = (false, [t ++ ": " ++ "Version doesn't match semver or PEP440 scheme: 'Wow'"])) := by
  refine ⟨?_, by decide, by decide, by decide, rfl, fun t => rfl⟩
  intro useV epoch x y z pre build hx hy hz hepoch hpre hbuild
  exact specVersionString_accepted useV epoch x y z pre build hx hy hz hepoch hpre hbuild

/-- C6 witness: the family theorem applied with every optional part
present — the rendered string is "v1!1.2.3-rc.4+b.5". -/
theorem c6_version_validator_witness :
    (specSeg ['1'] = true ∧ specSeg ['2'] = true ∧ specSeg ['3'] = true)
    ∧ String.mk (specVersionString true (some ['1']) ['1'] ['2'] ['3']
        (some ('-', ['r', 'c'], some ['4'])) (some (['b'], some ['5']))) = "v1!1.2.3-rc.4+b.5"
    ∧ versionMatch (String.mk (specVersionString true (some ['1']) ['1'] ['2'] ['3']
        (some ('-', ['r', 'c'], some ['4'])) (some (['b'], some ['5'])))) = true :=
  ⟨⟨by decide, by decide, by decide⟩, by decide,
   c6_version_validator.1 true (some ['1']) ['1'] ['2'] ['3']
     (some ('-', ['r', 'c'], some ['4'])) (some (['b'], some ['5']))
     (by decide) (by decide) (by decide)
     (by intro e he; injection he with h; rw [← h]; decide)
     (by
       intro sep lab num hp
       injection hp with hpair
       injection hpair with h1 h2
       injection h2 with h2a h2b
       subst h1
       subst h2a
       subst h2b
       exact ⟨Or.inl rfl, by decide, by intro d hd; injection hd with hx; rw [← hx]; decide⟩)
     (by
       intro lab num hb
       injection hb with hpair
       injection hpair with h1 h2
       subst h1
       subst h2
       exact ⟨by decide, by intro d hd; injection hd with hx; rw [← hx]; decide⟩)⟩

/-- C7: in a forced run with a valid python install method that contains
at least one pypi tool, the "force install not yet supported" warning
appears exactly once in the whole run's trace — the guard flag prevents a
second emission — and every pypi install command the run builds is
non-forced (contains no `--force`). -/
theorem c7_force_warning_once
    (rust_install_method python_install_method : String)
    (binstall_on_path uv_on_path : Bool)
    (installed_rust_tools installed_python_packages : List (String × String))
    (tools : List ToolInfo) (logs : List LogMsg) (cmds : List (String × List String))
    (hm : python_install_method = "prefer-uv" ∨ python_install_method = "uv"
      ∨ python_install_method = "pip")
    (_hpypi : ∃ t ∈ tools, t.source = "pypi")
    (h : run_main true rust_install_method python_install_method binstall_on_path uv_on_path
        installed_rust_tools installed_python_packages tools = some (logs, cmds)) :
    logs.count LogMsg.pythonForceNotSupported = 1
    ∧ ∀ src c, (src, c) ∈ cmds → src = "pypi" → "--force" ∉ c := by
  obtain ⟨pc, hpc, hpcf, hplogs⟩ := prepare_python_valid python_install_method uv_on_path true hm
  unfold run_main at h
  rw [Option.map_eq_some'] at h
  obtain ⟨⟨l', c'⟩, hrec, heq⟩ := h
  injection heq with e1 e2
  subst e1
  subst e2
  constructor
  · have h1 : (prepare_rust_install_command true rust_install_method binstall_on_path).2.count
        LogMsg.pythonForceNotSupported = 0 :=
      List.count_eq_zero.2 (prepare_rust_no_force_warning true rust_install_method binstall_on_path)
    have h2 : l'.count LogMsg.pythonForceNotSupported = 0 :=
      List.count_eq_zero.2
        (main_loop_no_force_warning true installed_rust_tools _ _ tools l' c' hrec)
    rw [List.count_append, List.count_append, h1, h2, hplogs]
    simp
  · rw [hpc] at hrec
    exact fun src c hcm hsrc =>
      main_loop_pypi_no_force true installed_rust_tools _ pc hpcf tools l' c' hrec src c hcm hsrc

/-- C7 witness: a forced run over one pypi tool, with the theorem's
hypotheses discharged concretely. -/
theorem c7_force_warning_once_witness :
    ∃ logs cmds,
      run_main true "install" "pip" false false [] []
          [{ name := "foo", version := "1.0.0", source := "pypi", locked := false }]
        = some (logs, cmds)
      ∧ logs.count LogMsg.pythonForceNotSupported = 1
      ∧ ∀ src c, (src, c) ∈ cmds → src = "pypi" → "--force" ∉ c := by
  have h := c7_force_warning_once "install" "pip" false false [] []
    [{ name := "foo", version := "1.0.0", source := "pypi", locked := false }]
    [LogMsg.pythonForceNotSupported, LogMsg.notFoundInstalling "foo",
      LogMsg.installing "foo==1.0.0", LogMsg.runningCommand ["pip", "install", "foo==1.0.0"],
      LogMsg.successfullyInstalled "foo==1.0.0"]
    [("pypi", ["pip", "install", "foo==1.0.0"])]
    (Or.inr (Or.inr rfl)) ⟨_, List.Mem.head _, rfl⟩ rfl
  exact ⟨_, _, rfl, h.1, h.2⟩

/-- C8: the manifest read is all-or-nothing: a section with at least one
entry failing any validation yields the failure sentinel and never a
partial list, and a section whose entries all validate yields the full
ordered record list. -/
theorem c8_read_all_or_nothing (entries : List (String × Toml)) :
    ((∃ e ∈ entries, entryValid e = false) → read_tools entries = none)
    ∧ (entries.all entryValid = true →
        read_tools entries = some (entries.map entryRecord)) := by
  constructor
  · rintro ⟨e, he, hv⟩
    rw [read_tools_eq]
    cases hall : entries.all entryValid
    · simp
    · have := List.all_eq_true.1 hall e he
      simp [hv] at this
  · intro h
    rw [read_tools_eq]
    simp [h]

/-- C8 witness: one invalid entry fails the whole read; a fully valid
section yields the full record list. -/
theorem c8_read_all_or_nothing_witness :
    read_tools [("-bad", Toml.str "x")] = none
    ∧ read_tools [("install_tool_rs",
        Toml.table [("version", Toml.str "1.1.4"), ("source", Toml.str "crate")])]
      = some [{ name := "install_tool_rs", version := "1.1.4",
                source := "crate", locked := false }] :=
  ⟨(c8_read_all_or_nothing _).1 ⟨("-bad", Toml.str "x"), List.Mem.head _, by decide⟩,
   (c8_read_all_or_nothing _).2 (by decide)⟩

/-- C9: an empty-string installed version takes the same branch as an
absent entry — Python's `if not installed_version` is truthiness — so the
decision is the "not found, installing" path (no skip, regardless of
forceInstall), identical to the decision for a map without the tool. -/
theorem c9_empty_version_as_absent (name version : String) (force_install : Bool)
    (m1 m2 : List (String × String))
    (h1 : m1.lookup name = some "") (h2 : m2.lookup name = none) :
    check_tool_installed name version force_install m1
      = (false, [LogMsg.notFoundInstalling name])
    ∧ check_tool_installed name version force_install m1
      = check_tool_installed name version force_install m2 := by
  unfold check_tool_installed
  rw [h1, h2]
  simp

/-- C9 witness: the theorem at a concrete map sending "t" to "". -/
theorem c9_empty_version_as_absent_witness :
    ([("t", "")].lookup "t" = some "")
    ∧ (([] : List (String × String)).lookup "t" = none)
    ∧ check_tool_installed "t" "1.0.0" true [("t", "")]
        = (false, [LogMsg.notFoundInstalling "t"]) :=
  ⟨rfl, rfl, (c9_empty_version_as_absent "t" "1.0.0" true [("t", "")] [] rfl rfl).1⟩

/-- C10: in every forced run with a valid python install method — whatever
the manifest holds, even with no pypi tool at all — the python
force-install warning is emitted during the one-time command preparation,
after the rust preparation's messages and before every message of the
per-tool loop, and the loop itself never emits it. -/
theorem c10_warning_at_startup
    (rust_install_method python_install_method : String)
    (binstall_on_path uv_on_path : Bool)
    (installed_rust_tools installed_python_packages : List (String × String))
    (tools : List ToolInfo) (logs : List LogMsg) (cmds : List (String × List String))
    (hm : python_install_method = "prefer-uv" ∨ python_install_method = "uv"
      ∨ python_install_method = "pip")
    (h : run_main true rust_install_method python_install_method binstall_on_path uv_on_path
        installed_rust_tools installed_python_packages tools = some (logs, cmds)) :
    ∃ loop_logs,
      main_loop true installed_rust_tools
          (prepare_rust_install_command true rust_install_method binstall_on_path).1
          (prepare_python_install_command true python_install_method uv_on_path false).1 tools
        = some (loop_logs, cmds)
      ∧ logs = (prepare_rust_install_command true rust_install_method binstall_on_path).2
          ++ [LogMsg.pythonForceNotSupported] ++ loop_logs
      ∧ LogMsg.pythonForceNotSupported
          ∉ (prepare_rust_install_command true rust_install_method binstall_on_path).2
      ∧ LogMsg.pythonForceNotSupported ∉ loop_logs := by
  obtain ⟨pc, hpc, hpcf, hplogs⟩ := prepare_python_valid python_install_method uv_on_path true hm
  unfold run_main at h
  rw [Option.map_eq_some'] at h
  obtain ⟨⟨l', c'⟩, hrec, heq⟩ := h
  injection heq with e1 e2
  subst e1
  subst e2
  refine ⟨l', hrec, ?_, prepare_rust_no_force_warning _ _ _,
    main_loop_no_force_warning true installed_rust_tools _ _ tools l' c' hrec⟩
  rw [hplogs]
  simp

/-- C10 witness: a forced run whose manifest has no pypi tool at all still
logs the warning, between preparation and the (empty) loop trace. -/
theorem c10_warning_at_startup_witness :
    run_main true "install" "pip" false false [] [] []
      = some ([LogMsg.pythonForceNotSupported], [])
    ∧ ∃ loop_logs,
        main_loop true []
            (prepare_rust_install_command true "install" false).1
            (prepare_python_install_command true "pip" false false).1 []
          = some (loop_logs, [])
        ∧ ([LogMsg.pythonForceNotSupported] : List LogMsg)
            = (prepare_rust_install_command true "install" false).2
              ++ [LogMsg.pythonForceNotSupported] ++ loop_logs
        ∧ LogMsg.pythonForceNotSupported
            ∉ (prepare_rust_install_command true "install" false).2
        ∧ LogMsg.pythonForceNotSupported ∉ loop_logs :=
  ⟨rfl, c10_warning_at_startup "install" "pip" false false [] [] []
    [LogMsg.pythonForceNotSupported] [] (Or.inr (Or.inr rfl)) rfl⟩
